/-
Verification of the prime digit-square property analyzer.

The program under verification generates primes up to a bound, computes the
digit-square invariant Δ(n) = (n / 10)² + (n % 10)² − n, scans prime pairs
(p1, p1 + gap) with p1 ≥ 11 classifying each by whether Δ(p1) or Δ(p2) is
divisible by a modulus, and performs a mod-6 structural analysis for gaps
divisible by 6.

Integers are modelled as ℤ (the source uses arbitrary-precision / int64
integers); `/` and `%` on ℤ in Lean are Euclidean division, which agrees with
the source language's floor division and modulo on every value reached here
(the divisors are the positive constants 2, 3, 6, 10, and for a possibly
negative dividend both conventions agree on divisibility tests `% m == 0`
and agree exactly on nonnegative dividends).
-/
import Mathlib

namespace PrimeAnalyzer

/-- The trial-division while-loop of `is_prime`:
`i = 3; while i * i <= n: if n % i == 0: return False; i += 2; return True`.
The loop is modelled with an explicit fuel argument for structural recursion;
`fuel` at least `m` always suffices (established by `trial_div_loop_true_iff`),
and `is_prime` calls it with fuel `m`. -/
def trial_div_loop (m : ℕ) : ℕ → ℕ → Bool
  | 0, _ => true
  | fuel + 1, i =>
    if i * i ≤ m then
      if m % i = 0 then false
      else trial_div_loop m fuel (i + 2)
    else true

/-- `is_prime(n)`: fast primality test for integers (trial division by odd
numbers up to √n). -/
def is_prime (n : ℤ) : Bool :=
  if n < 2 then false
  else if n = 2 then true
  else if n % 2 = 0 then false
  else trial_div_loop n.toNat n.toNat 3

/-- With sufficient fuel, the loop returns `false` exactly when some divisor
of `m` in the arithmetic progression `i, i+2, i+4, …` has square at most `m`. -/
lemma trial_div_loop_false_iff (m : ℕ) :
    ∀ fuel i, m < fuel + i →
      (trial_div_loop m fuel i = false ↔
        ∃ j, i ≤ j ∧ (∃ t, j = i + 2 * t) ∧ j * j ≤ m ∧ j ∣ m) := by
  intro fuel
  induction fuel with
  | zero =>
    intro i hi
    simp only [trial_div_loop]
    constructor
    · intro h; cases h
    · rintro ⟨j, hij, _, hjj, _⟩
      exfalso
      have h1 : 1 ≤ j := le_trans (by omega) hij
      have : j ≤ j * j := Nat.le_mul_of_pos_left j (by omega)
      omega
  | succ fuel ih =>
    intro i hi
    simp only [trial_div_loop]
    by_cases hsq : i * i ≤ m
    · simp only [if_pos hsq]
      by_cases hdvd : m % i = 0
      · simp only [if_pos hdvd]
        constructor
        · intro _
          exact ⟨i, le_refl i, ⟨0, by omega⟩, hsq, Nat.dvd_of_mod_eq_zero hdvd⟩
        · intro _; trivial
      · simp only [if_neg hdvd]
        rw [ih (i + 2) (by omega)]
        constructor
        · rintro ⟨j, hij, ⟨t, ht⟩, hjj, hj⟩
          exact ⟨j, by omega, ⟨t + 1, by omega⟩, hjj, hj⟩
        · rintro ⟨j, hij, ⟨t, ht⟩, hjj, hj⟩
          have hne : j ≠ i := by
            intro h
            subst h
            obtain ⟨c, hc⟩ := hj
            exact hdvd (by simp [hc, Nat.mul_mod_right])
          have ht1 : 1 ≤ t := by omega
          exact ⟨j, by omega, ⟨t - 1, by omega⟩, hjj, hj⟩
    · simp only [if_neg hsq]
      constructor
      · intro h; cases h
      · rintro ⟨j, hij, _, hjj, _⟩
        exact absurd (le_trans (Nat.mul_le_mul hij hij) hjj) hsq

/-- For an odd `m ≥ 3`, the trial-division loop started at 3 with fuel `m`
decides primality of `m`. -/
lemma trial_div_loop_true_iff (m : ℕ) (hm : 3 ≤ m) (hodd : m % 2 = 1) :
    trial_div_loop m m 3 = true ↔ Nat.Prime m := by
  have hfuel : m < m + 3 := by omega
  constructor
  · intro htrue
    by_contra hnp
    have hnot : ¬(2 ≤ m ∧ ∀ d, 2 ≤ d → d ≤ Nat.sqrt m → ¬d ∣ m) := fun hc =>
      hnp (Nat.prime_def_le_sqrt.mpr hc)
    push_neg at hnot
    obtain ⟨d, hd2, hdsqrt, hddvd⟩ := hnot (by omega)
    have hddm : d * d ≤ m := Nat.le_sqrt.mp hdsqrt
    -- pass to the least prime factor of d: odd, ≥ 3, square still ≤ m
    set p := d.minFac with hp
    have hpp : p.Prime := Nat.minFac_prime (by omega)
    have hpd : p ∣ d := Nat.minFac_dvd d
    have hpm : p ∣ m := hpd.trans hddvd
    have hple : p ≤ d := Nat.minFac_le (by omega)
    have hp2 : 2 ≤ p := hpp.two_le
    have hne2 : p ≠ 2 := by
      intro h2
      have h2m : (2 : ℕ) ∣ m := h2 ▸ hpm
      omega
    have hpodd : p % 2 = 1 := by
      rcases Nat.mod_two_eq_zero_or_one p with h | h
      · rcases (Nat.Prime.eq_one_or_self_of_dvd hpp 2 (Nat.dvd_of_mod_eq_zero h)) with
          h1 | h1 <;> omega
      · exact h
    have hfalse : trial_div_loop m m 3 = false :=
      (trial_div_loop_false_iff m m 3 hfuel).mpr
        ⟨p, by omega, ⟨(p - 3) / 2, by omega⟩,
          le_trans (Nat.mul_le_mul hple hple) hddm, hpm⟩
    simp [htrue] at hfalse
  · intro hprime
    by_contra hfalse
    have : trial_div_loop m m 3 = false := by
      cases h : trial_div_loop m m 3 with
      | true => exact absurd h hfalse
      | false => rfl
    rw [trial_div_loop_false_iff m m 3 hfuel] at this
    obtain ⟨j, hij, _, hjj, hjdvd⟩ := this
    have hj1 : j ≠ 1 := by omega
    have hjm : j < m := by
      have : 2 * j ≤ j * j := Nat.mul_le_mul_right j (by omega)
      omega
    rcases (Nat.Prime.eq_one_or_self_of_dvd hprime j hjdvd) with h | h
    · exact hj1 h
    · omega

/-- `is_prime` decides (positive) primality over ℤ. -/
lemma is_prime_iff (n : ℤ) : is_prime n = true ↔ 0 ≤ n ∧ Prime n := by
  unfold is_prime
  by_cases h2 : n < 2
  · simp only [if_pos h2]
    constructor
    · intro h; cases h
    · rintro ⟨h0, hp⟩
      have hnat : Nat.Prime n.natAbs := Int.prime_iff_natAbs_prime.mp hp
      have := Int.natAbs_of_nonneg h0
      have := hnat.two_le
      omega
  · simp only [if_neg h2]
    by_cases heq : n = 2
    · simp only [if_pos heq, heq]
      simp [Int.prime_two, Nat.prime_two]
    · simp only [if_neg heq]
      by_cases hev : n % 2 = 0
      · simp only [if_pos hev]
        constructor
        · intro h; cases h
        · rintro ⟨h0, hp⟩
          have hnat : Nat.Prime n.natAbs := Int.prime_iff_natAbs_prime.mp hp
          have hdvd2 : (2 : ℤ) ∣ n := by omega
          have hdvd : (2 : ℕ) ∣ n.natAbs :=
            (Int.natAbs_dvd_natAbs (a := 2) (b := n)).mpr hdvd2
          have hcast := Int.natAbs_of_nonneg h0
          rcases hnat.eq_one_or_self_of_dvd 2 hdvd with h | h <;> omega
      · simp only [if_neg hev]
        have hge : 3 ≤ n := by omega
        have h3 : 3 ≤ n.toNat := by omega
        have hodd : n.toNat % 2 = 1 := by omega
        rw [trial_div_loop_true_iff n.toNat h3 hodd]
        have hcast : (n.toNat : ℤ) = n := Int.toNat_of_nonneg (by omega)
        constructor
        · intro hp
          refine ⟨by omega, ?_⟩
          have : Nat.Prime n.natAbs := by
            have : n.natAbs = n.toNat := by omega
            rw [this]; exact hp
          exact Int.prime_iff_natAbs_prime.mpr this
        · rintro ⟨_, hp⟩
          have habs : Nat.Prime n.natAbs := Int.prime_iff_natAbs_prime.mp hp
          have : n.natAbs = n.toNat := by omega
          rwa [this] at habs

/-- C2: For every integer n (including n < 0), `is_prime n` returns true if and
only if n is a (positive) prime number; the function is total over ℤ with no
error outcome (it is a Lean function into Bool). -/
theorem is_prime_correct (n : ℤ) : is_prime n = true ↔ 0 ≤ n ∧ Prime n :=
  is_prime_iff n

/-- `generate_primes_array(max_n)`: all primes up to `max_n` in ascending order
(`for n in range(2, max_n + 1): if is_prime(n): primes.append(n)`). -/
def generate_primes_array (max_n : ℤ) : List ℤ :=
  ((List.range' 2 (max_n - 1).toNat).map (fun (n : ℕ) => (n : ℤ))).filter
    (fun n => is_prime n)

/-- Membership in the generated prime sequence. -/
lemma mem_generate_primes (N p : ℤ) :
    p ∈ generate_primes_array N ↔ 2 ≤ p ∧ p ≤ N ∧ Prime p := by
  simp only [generate_primes_array, List.mem_filter, List.mem_map,
    List.mem_range'_1]
  constructor
  · rintro ⟨⟨a, ⟨ha2, halt⟩, rfl⟩, hp⟩
    have h := (is_prime_iff _).mp hp
    exact ⟨by omega, by omega, h.2⟩
  · rintro ⟨h2, hN, hp⟩
    constructor
    · exact ⟨p.toNat, ⟨by omega, by omega⟩, by omega⟩
    · exact (is_prime_iff p).mpr ⟨by omega, hp⟩

/-- The generated prime sequence is strictly increasing. -/
lemma generate_primes_sorted (N : ℤ) :
    (generate_primes_array N).Pairwise (· < ·) := by
  apply List.Pairwise.filter
  exact List.Pairwise.map _ (fun a b h => by exact_mod_cast h)
    (List.pairwise_lt_range' 2 (N - 1).toNat)

/-- C3: `generate_primes_array N` is strictly increasing (sorted ascending, no
duplicates), contains exactly the primes p with 2 ≤ p ≤ N, and is empty when
N < 2. -/
theorem generate_primes_array_correct (N : ℤ) :
    (generate_primes_array N).Pairwise (· < ·) ∧
    (∀ p : ℤ, p ∈ generate_primes_array N ↔ 2 ≤ p ∧ p ≤ N ∧ Prime p) ∧
    (N < 2 → generate_primes_array N = []) := by
  refine ⟨generate_primes_sorted N, fun p => mem_generate_primes N p, fun hN => ?_⟩
  have : (N - 1).toNat = 0 := by omega
  unfold generate_primes_array
  rw [this]
  rfl

/-- C3 witness: the empty sequence at N = 1 and sortedness at N = 10. -/
theorem generate_primes_array_correct_witness :
    generate_primes_array 1 = [] ∧
    (generate_primes_array 10).Pairwise (· < ·) :=
  ⟨(generate_primes_array_correct 1).2.2 (by decide),
   (generate_primes_array_correct 10).1⟩

/-- `compute_delta(n)`: the digit-square invariant
Δ(n) = (n / 10)² + (n % 10)² − n, with sentinel −1 for n < 10. -/
def compute_delta (n : ℤ) : ℤ :=
  if n < 10 then -1
  else
    let x := n / 10
    let y := n % 10
    x * x + y * y - n

/-- C4: `compute_delta` returns the sentinel −1 when n < 10 and
(n / 10)² + (n % 10)² − n when n ≥ 10; it is a pure Lean function
(deterministic, no side effects). -/
theorem compute_delta_correct (n : ℤ) :
    (n < 10 → compute_delta n = -1) ∧
    (10 ≤ n → compute_delta n = (n / 10) ^ 2 + (n % 10) ^ 2 - n) := by
  constructor
  · intro h; simp [compute_delta, h]
  · intro h
    simp only [compute_delta, if_neg (by omega : ¬n < 10)]
    ring

/-- C4 witness: the sentinel at n = 3 and the formula at n = 42. -/
theorem compute_delta_correct_witness :
    compute_delta 3 = -1 ∧
    compute_delta 42 = (42 / 10) ^ 2 + (42 % 10) ^ 2 - 42 :=
  ⟨(compute_delta_correct 3).1 (by decide), (compute_delta_correct 42).2 (by decide)⟩

/-- Configured gaps for the base-10 analysis. -/
def GAPS_TO_ANALYZE : List ℤ := [2, 4, 6, 8, 10, 12, 14, 16, 18, 20, 24, 30]

/-- Configured gaps for the mod-6 structural analysis. -/
def MOD6_GAPS : List ℤ := [6, 12, 18, 24, 30]

/-- The scanner's success predicate:
`delta1 % modulus == 0 or delta2 % modulus == 0`. -/
def pair_success (modulus p1 p2 : ℤ) : Bool :=
  decide (compute_delta p1 % modulus = 0) ||
    decide (compute_delta p2 % modulus = 0)

/-- The loop of `_collect_base10_data`: iterate over the prime sequence,
skip `p1 < 11`, break once `p1 + gap` exceeds the last prime, test
membership of `p2` in the prime set, update the three accumulators. -/
def _collect_base10_go (primes : List ℤ) (last gap modulus : ℤ)
    (total success : ℕ) (cex : List (ℤ × ℤ)) :
    List ℤ → ℕ × ℕ × List (ℤ × ℤ)
  | [] => (total, success, cex)
  | p1 :: rest =>
    if p1 < 11 then
      _collect_base10_go primes last gap modulus total success cex rest
    else
      let p2 := p1 + gap
      if last < p2 then (total, success, cex)
      else if p2 ∈ primes then
        if pair_success modulus p1 p2 then
          _collect_base10_go primes last gap modulus (total + 1) (success + 1)
            cex rest
        else
          _collect_base10_go primes last gap modulus (total + 1) success
            (if cex.length < 10 then cex ++ [(p1, p2)] else cex) rest
      else
        _collect_base10_go primes last gap modulus total success cex rest

/-- `_collect_base10_data(primes, gap, modulus)`: the gap-pair scanner.
On an empty sequence the loop body never runs (and the maximum element is
never evaluated). -/
def _collect_base10_data (primes : List ℤ) (gap modulus : ℤ) :
    ℕ × ℕ × List (ℤ × ℤ) :=
  match primes with
  | [] => (0, 0, [])
  | _ :: _ => _collect_base10_go primes (primes.getLastD 0) gap modulus 0 0 [] primes

/-- Specification: the qualifying pairs the scan visits, in visit order,
honoring the early break once `p1 + gap` exceeds `last`. -/
def scan_pairs (primes : List ℤ) (last gap : ℤ) : List ℤ → List (ℤ × ℤ)
  | [] => []
  | p1 :: rest =>
    if p1 < 11 then scan_pairs primes last gap rest
    else if last < p1 + gap then []
    else if p1 + gap ∈ primes then
      (p1, p1 + gap) :: scan_pairs primes last gap rest
    else scan_pairs primes last gap rest

/-- Specification: the qualifying pairs of a full scanner run. -/
def scanned_pairs (primes : List ℤ) (gap : ℤ) : List (ℤ × ℤ) :=
  match primes with
  | [] => []
  | _ :: _ => scan_pairs primes (primes.getLastD 0) gap primes

/-- Master characterization of the scanner loop: given at most 10 held
counterexamples, the run returns the pair count, the success count, and the
capped failing-pair list of the pairs it visits. -/
lemma collect_base10_go_spec (primes : List ℤ) (last gap modulus : ℤ) :
    ∀ (l : List ℤ) (total success : ℕ) (cex : List (ℤ × ℤ)),
      cex.length ≤ 10 →
      _collect_base10_go primes last gap modulus total success cex l =
        (total + (scan_pairs primes last gap l).length,
         success + ((scan_pairs primes last gap l).filter
           (fun q => pair_success modulus q.1 q.2)).length,
         (cex ++ (scan_pairs primes last gap l).filter
           (fun q => !pair_success modulus q.1 q.2)).take 10) := by
  intro l
  induction l with
  | nil =>
    intro total success cex hcex
    simp [_collect_base10_go, scan_pairs, List.take_of_length_le hcex]
  | cons p1 rest ih =>
    intro total success cex hcex
    simp only [_collect_base10_go, scan_pairs]
    by_cases h11 : p1 < 11
    · simp only [if_pos h11]
      exact ih total success cex hcex
    · simp only [if_neg h11]
      by_cases hbrk : last < p1 + gap
      · simp only [if_pos hbrk]
        simp [List.take_of_length_le hcex]
      · simp only [if_neg hbrk]
        by_cases hmem : p1 + gap ∈ primes
        · simp only [if_pos hmem]
          by_cases hsucc : pair_success modulus p1 (p1 + gap) = true
          · rw [if_pos hsucc, ih (total + 1) (success + 1) cex hcex]
            simp only [List.length_cons, List.filter_cons, hsucc]
            simp only [Bool.not_true, if_true, cond_true]
            refine congrArg₂ Prod.mk (by omega) (congrArg₂ Prod.mk (by simp; omega) ?_)
            simp
          · rw [if_neg hsucc]
            have hsf : pair_success modulus p1 (p1 + gap) = false :=
              Bool.eq_false_iff.mpr hsucc
            by_cases hlen : cex.length < 10
            · rw [if_pos hlen,
                ih (total + 1) success (cex ++ [(p1, p1 + gap)]) (by simp; omega)]
              simp only [List.length_cons, List.filter_cons, hsf]
              simp only [Bool.not_false, if_false, cond_false, cond_true]
              refine congrArg₂ Prod.mk (by omega) (congrArg₂ Prod.mk (by simp) ?_)
              simp
            · rw [if_neg hlen, ih (total + 1) success cex hcex]
              have h10 : cex.length = 10 := by omega
              simp only [List.length_cons, List.filter_cons, hsf]
              simp only [Bool.not_false, cond_false, cond_true]
              refine congrArg₂ Prod.mk (by omega) (congrArg₂ Prod.mk (by simp) ?_)
              rw [List.take_append_of_le_length (by omega),
                List.take_append_of_le_length (by omega)]
        · simp only [if_neg hmem]
          exact ih total success cex hcex

/-- The scanner's outputs are the length, success count and capped failing
list of the visited-pair list. -/
lemma collect_base10_data_spec (primes : List ℤ) (gap modulus : ℤ) :
    _collect_base10_data primes gap modulus =
      ((scanned_pairs primes gap).length,
       ((scanned_pairs primes gap).filter
         (fun q => pair_success modulus q.1 q.2)).length,
       ((scanned_pairs primes gap).filter
         (fun q => !pair_success modulus q.1 q.2)).take 10) := by
  cases primes with
  | nil => rfl
  | cons p ps =>
    show _collect_base10_go _ _ _ _ 0 0 [] _ = _
    rw [collect_base10_go_spec _ _ _ _ _ 0 0 [] (by simp)]
    simp [scanned_pairs]

/-- Every visited pair has `p1 ≥ 11`, partner exactly `p1 + gap`, `p1` from
the iterated list and `p2` a member of the prime set. -/
lemma scan_pairs_mem (primes : List ℤ) (last gap : ℤ) :
    ∀ (l : List ℤ) (q : ℤ × ℤ), q ∈ scan_pairs primes last gap l →
      11 ≤ q.1 ∧ q.2 = q.1 + gap ∧ q.1 ∈ l ∧ q.2 ∈ primes := by
  intro l
  induction l with
  | nil => intro q h; simp [scan_pairs] at h
  | cons p1 rest ih =>
    intro q h
    simp only [scan_pairs] at h
    by_cases h11 : p1 < 11
    · rw [if_pos h11] at h
      obtain ⟨ha, hb, hc, hd⟩ := ih q h
      exact ⟨ha, hb, List.mem_cons_of_mem _ hc, hd⟩
    · rw [if_neg h11] at h
      by_cases hbrk : last < p1 + gap
      · rw [if_pos hbrk] at h; cases h
      · rw [if_neg hbrk] at h
        by_cases hmem : p1 + gap ∈ primes
        · rw [if_pos hmem] at h
          rcases List.mem_cons.mp h with rfl | h'
          · exact ⟨by omega, rfl, List.mem_cons_self _ _, hmem⟩
          · obtain ⟨ha, hb, hc, hd⟩ := ih q h'
            exact ⟨ha, hb, List.mem_cons_of_mem _ hc, hd⟩
        · rw [if_neg hmem] at h
          obtain ⟨ha, hb, hc, hd⟩ := ih q h
          exact ⟨ha, hb, List.mem_cons_of_mem _ hc, hd⟩

/-- `getLastD` of a list is its default or one of its members. -/
lemma getLastD_eq_or_mem : ∀ (l : List ℤ) (d : ℤ),
    l.getLastD d = d ∨ l.getLastD d ∈ l := by
  intro l
  induction l with
  | nil => intro d; left; rfl
  | cons a l ih =>
    intro d
    rw [List.getLastD_cons]
    rcases ih a with h | h
    · right; rw [h]; exact List.mem_cons_self _ _
    · right; exact List.mem_cons_of_mem _ h

/-- In a `≤`-sorted list every element is at most `getLastD`. -/
lemma sorted_le_getLastD : ∀ (l : List ℤ) (d : ℤ), l.Pairwise (· ≤ ·) →
    ∀ q ∈ l, q ≤ l.getLastD d := by
  intro l
  induction l with
  | nil => intro d _ q hq; cases hq
  | cons p ps ih =>
    intro d hl q hq
    rw [List.pairwise_cons] at hl
    rw [List.getLastD_cons]
    rcases List.mem_cons.mp hq with rfl | hq'
    · rcases getLastD_eq_or_mem ps q with h | h
      · rw [h]
      · exact hl.1 _ h
    · exact ih p hl.2 q hq'

/-- On a sorted prime sequence the early break loses nothing: the visited
pairs are exactly those of an unrestricted scan over the whole sequence. -/
lemma scan_pairs_no_break (primes : List ℤ) (last gap : ℤ)
    (hlast : ∀ q ∈ primes, q ≤ last) :
    ∀ (l : List ℤ), l.Pairwise (· ≤ ·) →
      scan_pairs primes last gap l =
        (l.filter (fun p1 => decide (11 ≤ p1) &&
          decide (p1 + gap ∈ primes))).map (fun p1 => (p1, p1 + gap)) := by
  intro l
  induction l with
  | nil => intro _; rfl
  | cons p1 rest ih =>
    intro hsort
    rw [List.pairwise_cons] at hsort
    obtain ⟨hp1, hrest⟩ := hsort
    simp only [scan_pairs, List.filter_cons]
    by_cases h11 : p1 < 11
    · have hpred : (decide (11 ≤ p1) && decide (p1 + gap ∈ primes)) = false := by
        have : decide (11 ≤ p1) = false := by simp; omega
        simp [this]
      rw [if_pos h11, hpred]
      exact ih hrest
    · by_cases hbrk : last < p1 + gap
      · rw [if_neg h11, if_pos hbrk]
        have hall : ∀ x ∈ p1 :: rest,
            ¬(decide (11 ≤ x) && decide (x + gap ∈ primes)) = true := by
          intro x hx
          have hxge : p1 ≤ x := by
            rcases List.mem_cons.mp hx with rfl | h
            · exact le_refl x
            · exact hp1 x h
          have hnm : x + gap ∉ primes := fun hm => by
            have := hlast _ hm; omega
          simp [hnm]
        have h0 : (decide (11 ≤ p1) && decide (p1 + gap ∈ primes)) = false :=
          Bool.eq_false_iff.mpr (hall p1 (List.mem_cons_self _ _))
        rw [h0, List.filter_eq_nil_iff.mpr
          (fun x hx => hall x (List.mem_cons_of_mem _ hx))]
        simp
      · rw [if_neg h11, if_neg hbrk]
        by_cases hmem : p1 + gap ∈ primes
        · have hpred : (decide (11 ≤ p1) && decide (p1 + gap ∈ primes)) = true := by
            simp [hmem]; omega
          rw [if_pos hmem, hpred, ih hrest]
          rfl
        · have hpred : (decide (11 ≤ p1) && decide (p1 + gap ∈ primes)) = false := by
            simp [hmem]
          rw [if_neg hmem, hpred]
          exact ih hrest

/-- For a strictly sorted prime sequence, the visited pairs of a full run are
those of the unrestricted scan. -/
lemma scanned_pairs_eq (primes : List ℤ) (gap : ℤ)
    (hs : primes.Pairwise (· < ·)) :
    scanned_pairs primes gap =
      (primes.filter (fun p1 => decide (11 ≤ p1) &&
        decide (p1 + gap ∈ primes))).map (fun p1 => (p1, p1 + gap)) := by
  cases primes with
  | nil => rfl
  | cons p ps =>
    show scan_pairs _ _ _ _ = _
    exact scan_pairs_no_break (p :: ps) ((p :: ps).getLastD 0) gap
      (sorted_le_getLastD _ 0 (hs.imp le_of_lt)) (p :: ps) (hs.imp le_of_lt)

/-- `%` and divisibility agree on ℤ. -/
lemma emod_eq_zero_iff_dvd (a b : ℤ) : a % b = 0 ↔ b ∣ a :=
  ⟨Int.dvd_of_emod_eq_zero, Int.emod_eq_zero_of_dvd⟩

/-- The success test `Δ % m == 0 or Δ % m == 0` is divisibility of the
possibly negative Δ values. -/
lemma pair_success_eq_dvd (modulus p1 p2 : ℤ) :
    pair_success modulus p1 p2 =
      (decide (modulus ∣ compute_delta p1) ||
       decide (modulus ∣ compute_delta p2)) := by
  simp only [pair_success, emod_eq_zero_iff_dvd]

/-- Specification (unrestricted scan over the whole sequence): the primes
p1 ≥ 11 of the sequence whose partner p1 + gap is also in the sequence. -/
def total_pairs_spec (primes : List ℤ) (gap : ℤ) : ℕ :=
  (primes.filter (fun p1 => decide (11 ≤ p1) &&
    decide (p1 + gap ∈ primes))).length

/-- Specification: among those, the pairs where the modulus divides Δ(p1) or
Δ(p2). -/
def successful_pairs_spec (primes : List ℤ) (gap modulus : ℤ) : ℕ :=
  (primes.filter (fun p1 => (decide (11 ≤ p1) &&
    decide (p1 + gap ∈ primes)) &&
    (decide (modulus ∣ compute_delta p1) ||
     decide (modulus ∣ compute_delta (p1 + gap))))).length

/-- C1: On the enumerated prime sequence for any bound N and any positive even
gap, the scanner's total equals the number of primes p1 ≥ 11 whose partner
p1 + k is in the sequence, and its success count equals the number of those
pairs where 3 divides Δ(p1) or Δ(p2); the early break omits no qualifying
pair, the counts being those of the unrestricted scan over the whole
sequence. -/
theorem base10_counts_correct (N k : ℤ) (hpos : 0 < k) (heven : k % 2 = 0) :
    (_collect_base10_data (generate_primes_array N) k 3).1 =
      total_pairs_spec (generate_primes_array N) k ∧
    (_collect_base10_data (generate_primes_array N) k 3).2.1 =
      successful_pairs_spec (generate_primes_array N) k 3 := by
  have hs := generate_primes_sorted N
  rw [collect_base10_data_spec, scanned_pairs_eq _ _ hs]
  constructor
  · simp [total_pairs_spec]
  · dsimp only
    rw [List.filter_map, List.filter_filter, List.length_map]
    unfold successful_pairs_spec
    congr 1
    apply List.filter_congr
    intro x _
    simp only [Function.comp_apply, pair_success_eq_dvd]
    exact Bool.and_comm _ _

/-- C1 witness: evaluated at N = 50, k = 6 (positive and even). -/
theorem base10_counts_correct_witness :
    (0 : ℤ) < 6 ∧ (6 : ℤ) % 2 = 0 ∧
    ((_collect_base10_data (generate_primes_array 50) 6 3).1 =
      total_pairs_spec (generate_primes_array 50) 6 ∧
     (_collect_base10_data (generate_primes_array 50) 6 3).2.1 =
      successful_pairs_spec (generate_primes_array 50) 6 3) :=
  ⟨by decide, by decide, base10_counts_correct 50 6 (by decide) (by decide)⟩

/-- The digit-square expression computed inline by the mod-6 analyzer
(`delta = x*x + y*y - p` with `x = p // 10`, `y = p % 10`), with no sentinel
branch. -/
def delta_raw (n : ℤ) : ℤ :=
  (n / 10) * (n / 10) + (n % 10) * (n % 10) - n

/-- The mod-6 analyzer's property bit:
`(delta1 % 3 == 0) or (delta2 % 3 == 0)`. -/
def has_property (gap p1 : ℤ) : Bool :=
  decide (delta_raw p1 % 3 = 0) || decide (delta_raw (p1 + gap) % 3 = 0)

/-- The loop of `_collect_mod6_data` over the candidate list
`range(11, max_prime - gap + 1)`: for each p1 with p1 and p1 + gap prime,
append `(p1 % 6, has_property)` and
`(y1, y2, has_property, p1, p2, x1 % 3, x2 % 3)`. -/
def _collect_mod6_go (gap : ℤ) :
    List ℤ → List (ℤ × Bool) × List (ℤ × ℤ × Bool × ℤ × ℤ × ℤ × ℤ)
  | [] => ([], [])
  | p1 :: rest =>
    let r := _collect_mod6_go gap rest
    if is_prime p1 then
      let p2 := p1 + gap
      if is_prime p2 then
        let x1 := p1 / 10
        let y1 := p1 % 10
        let x2 := p2 / 10
        let y2 := p2 % 10
        ((p1 % 6, has_property gap p1) :: r.1,
         (y1, y2, has_property gap p1, p1, p2, x1 % 3, x2 % 3) :: r.2)
      else r
    else r

/-- The integer candidates `11, 12, …, max_prime - gap` scanned by the mod-6
analyzer. -/
def mod6_candidates (max_prime gap : ℤ) : List ℤ :=
  (List.range' 11 (max_prime - gap - 10).toNat).map (fun (n : ℕ) => (n : ℤ))

/-- `_collect_mod6_data(max_prime, gap)`: the mod-6 structural analyzer. -/
def _collect_mod6_data (max_prime gap : ℤ) :
    List (ℤ × Bool) × List (ℤ × ℤ × Bool × ℤ × ℤ × ℤ × ℤ) :=
  _collect_mod6_go gap (mod6_candidates max_prime gap)

/-- Specification: the qualifying pair starts of the mod-6 analysis — the
candidates p1 with both p1 and p1 + gap prime. -/
def mod6_qualifying (max_prime gap : ℤ) : List ℤ :=
  (mod6_candidates max_prime gap).filter
    (fun p1 => is_prime p1 && is_prime (p1 + gap))

/-- The analyzer's two collections are the two record shapes mapped over the
qualifying candidates. -/
lemma collect_mod6_go_spec (gap : ℤ) : ∀ (l : List ℤ),
    _collect_mod6_go gap l =
      ((l.filter (fun p1 => is_prime p1 && is_prime (p1 + gap))).map
        (fun p1 => (p1 % 6, has_property gap p1)),
       (l.filter (fun p1 => is_prime p1 && is_prime (p1 + gap))).map
        (fun p1 => (p1 % 10, (p1 + gap) % 10, has_property gap p1, p1,
          p1 + gap, p1 / 10 % 3, (p1 + gap) / 10 % 3))) := by
  intro l
  induction l with
  | nil => rfl
  | cons p1 rest ih =>
    simp only [_collect_mod6_go, List.filter_cons, ih]
    by_cases hp1 : is_prime p1
    · by_cases hp2 : is_prime (p1 + gap)
      · simp [hp1, hp2]
      · simp [hp1, hp2]
    · simp [hp1]

/-- Membership in the qualifying candidates (for a nonnegative gap). -/
lemma mem_mod6_qualifying (N k p1 : ℤ) (hk : 0 ≤ k) :
    p1 ∈ mod6_qualifying N k ↔
      11 ≤ p1 ∧ p1 ≤ N - k ∧ Prime p1 ∧ Prime (p1 + k) := by
  simp only [mod6_qualifying, mod6_candidates, List.mem_filter, List.mem_map,
    List.mem_range'_1, Bool.and_eq_true]
  constructor
  · rintro ⟨⟨a, ⟨ha11, halt⟩, rfl⟩, hq1, hq2⟩
    have h1 := (is_prime_iff _).mp hq1
    have h2 := (is_prime_iff _).mp hq2
    exact ⟨by omega, by omega, h1.2, h2.2⟩
  · rintro ⟨h11, hle, hq1, hq2⟩
    refine ⟨⟨p1.toNat, ⟨by omega, by omega⟩, by omega⟩, ?_, ?_⟩
    · exact (is_prime_iff p1).mpr ⟨by omega, hq1⟩
    · exact (is_prime_iff (p1 + k)).mpr ⟨by omega, hq2⟩

/-- The qualifying candidates are strictly increasing. -/
lemma mod6_qualifying_sorted (N k : ℤ) :
    (mod6_qualifying N k).Pairwise (· < ·) := by
  apply List.Pairwise.filter
  exact List.Pairwise.map _ (fun a b h => by exact_mod_cast h)
    (List.pairwise_lt_range' 11 (N - k - 10).toNat)

/-- Above the sentinel domain, `compute_delta` is the inline digit-square
expression. -/
lemma compute_delta_eq_delta_raw (n : ℤ) (h : 10 ≤ n) :
    compute_delta n = delta_raw n := by
  simp [compute_delta, delta_raw, if_neg (by omega : ¬n < 10)]

/-- The property bit is divisibility of Δ by 3, for pairs above the sentinel
domain. -/
lemma has_property_eq_dvd (gap p1 : ℤ) (h1 : 10 ≤ p1) (h2 : 10 ≤ p1 + gap) :
    (has_property gap p1 = true ↔
      3 ∣ compute_delta p1 ∨ 3 ∣ compute_delta (p1 + gap)) := by
  rw [compute_delta_eq_delta_raw p1 h1, compute_delta_eq_delta_raw _ h2]
  simp [has_property, emod_eq_zero_iff_dvd]

/-- C5: For every bound N and positive gap k divisible by 6, the mod-6
analyzer produces two aligned collections, one record per qualifying pair:
collection (a) holds `(p1 % 6, has_property)` and collection (b) holds
`(y1, y2, has_property, p1, p2, x1 % 3, x2 % 3)`, both mapped over the same
strictly increasing list of the p1 with 11 ≤ p1 ≤ N − k and p1, p1 + k
prime (hence equal lengths, i-th records describing the same pair, ascending
in p1), where `has_property` is true iff 3 divides Δ(p1) or Δ(p2). -/
theorem mod6_data_aligned (N k : ℤ) (hk0 : 0 < k) (hk6 : k % 6 = 0) :
    (_collect_mod6_data N k).1 =
      (mod6_qualifying N k).map (fun p1 => (p1 % 6, has_property k p1)) ∧
    (_collect_mod6_data N k).2 =
      (mod6_qualifying N k).map (fun p1 => (p1 % 10, (p1 + k) % 10,
        has_property k p1, p1, p1 + k, p1 / 10 % 3, (p1 + k) / 10 % 3)) ∧
    (_collect_mod6_data N k).1.length = (_collect_mod6_data N k).2.length ∧
    (∀ p1 : ℤ, p1 ∈ mod6_qualifying N k ↔
      11 ≤ p1 ∧ p1 ≤ N - k ∧ Prime p1 ∧ Prime (p1 + k)) ∧
    (mod6_qualifying N k).Pairwise (· < ·) ∧
    (∀ p1 ∈ mod6_qualifying N k, (has_property k p1 = true ↔
      3 ∣ compute_delta p1 ∨ 3 ∣ compute_delta (p1 + k))) := by
  have hgo := collect_mod6_go_spec k (mod6_candidates N k)
  have h1 : (_collect_mod6_data N k).1 =
      (mod6_qualifying N k).map (fun p1 => (p1 % 6, has_property k p1)) := by
    rw [_collect_mod6_data, hgo]; rfl
  have h2 : (_collect_mod6_data N k).2 =
      (mod6_qualifying N k).map (fun p1 => (p1 % 10, (p1 + k) % 10,
        has_property k p1, p1, p1 + k, p1 / 10 % 3, (p1 + k) / 10 % 3)) := by
    rw [_collect_mod6_data, hgo]; rfl
  refine ⟨h1, h2, ?_, fun p1 => mem_mod6_qualifying N k p1 (by omega),
    mod6_qualifying_sorted N k, ?_⟩
  · rw [h1, h2, List.length_map, List.length_map]
  · intro p1 hp1
    have hm := (mem_mod6_qualifying N k p1 (by omega)).mp hp1
    exact has_property_eq_dvd k p1 (by omega) (by omega)

/-- C5 witness: evaluated at N = 60, k = 6. -/
theorem mod6_data_aligned_witness :
    (0 : ℤ) < 6 ∧ (6 : ℤ) % 6 = 0 ∧
    (_collect_mod6_data 60 6).1 =
      (mod6_qualifying 60 6).map (fun p1 => (p1 % 6, has_property 6 p1)) ∧
    (_collect_mod6_data 60 6).1.length = (_collect_mod6_data 60 6).2.length :=
  ⟨by decide, by decide, (mod6_data_aligned 60 6 (by decide) (by decide)).1,
    (mod6_data_aligned 60 6 (by decide) (by decide)).2.2.1⟩

/-- Strictly sorted integer lists with the same members are equal. -/
lemma sorted_lt_eq_of_mem_iff : ∀ (l₁ l₂ : List ℤ),
    l₁.Pairwise (· < ·) → l₂.Pairwise (· < ·) →
    (∀ x, x ∈ l₁ ↔ x ∈ l₂) → l₁ = l₂ := by
  intro l₁
  induction l₁ with
  | nil =>
    intro l₂ _ _ hmem
    cases l₂ with
    | nil => rfl
    | cons b l₂ => exact absurd ((hmem b).mpr (List.mem_cons_self _ _)) (by simp)
  | cons a l₁ ih =>
    intro l₂ h₁ h₂ hmem
    cases l₂ with
    | nil => exact absurd ((hmem a).mp (List.mem_cons_self _ _)) (by simp)
    | cons b l₂ =>
      rw [List.pairwise_cons] at h₁ h₂
      have hab : a = b := by
        rcases List.mem_cons.mp ((hmem a).mp (List.mem_cons_self _ _)) with
          h | h
        · exact h
        · rcases List.mem_cons.mp ((hmem b).mpr (List.mem_cons_self _ _)) with
            h' | h'
          · omega
          · have hba := h₂.1 a h
            have hab := h₁.1 b h'
            omega
      subst hab
      have htail : ∀ x, x ∈ l₁ ↔ x ∈ l₂ := by
        intro x
        constructor
        · intro hx
          rcases List.mem_cons.mp ((hmem x).mp (List.mem_cons_of_mem _ hx)) with
            h | h
          · have := h₁.1 x hx; omega
          · exact h
        · intro hx
          rcases List.mem_cons.mp ((hmem x).mpr (List.mem_cons_of_mem _ hx)) with
            h | h
          · have := h₂.1 x hx; omega
          · exact h
      rw [ih l₂ h₁.2 h₂.2 htail]

/-- The analyzer's collections as maps over the qualifying candidates. -/
lemma mod6_data_eq (N k : ℤ) :
    (_collect_mod6_data N k).1 =
      (mod6_qualifying N k).map (fun p1 => (p1 % 6, has_property k p1)) ∧
    (_collect_mod6_data N k).2 =
      (mod6_qualifying N k).map (fun p1 => (p1 % 10, (p1 + k) % 10,
        has_property k p1, p1, p1 + k, p1 / 10 % 3, (p1 + k) / 10 % 3)) := by
  constructor <;> (rw [_collect_mod6_data, collect_mod6_go_spec k]; rfl)

/-- Above the sentinel domain, the scanner's success test and the analyzer's
property bit coincide. -/
lemma pair_success_eq_has_property (k p1 : ℤ) (h1 : 10 ≤ p1)
    (h2 : 10 ≤ p1 + k) :
    pair_success 3 p1 (p1 + k) = has_property k p1 := by
  simp only [pair_success, has_property, compute_delta_eq_delta_raw p1 h1,
    compute_delta_eq_delta_raw _ h2]

/-- The scanner's qualifying starts on the enumerated sequence coincide with
the analyzer's qualifying candidates. -/
lemma base10_filter_eq_mod6_qualifying (N k : ℤ) (hk0 : 0 < k) :
    (generate_primes_array N).filter (fun p1 => decide (11 ≤ p1) &&
      decide (p1 + k ∈ generate_primes_array N)) = mod6_qualifying N k := by
  apply sorted_lt_eq_of_mem_iff
  · exact List.Pairwise.filter _ (generate_primes_sorted N)
  · exact mod6_qualifying_sorted N k
  · intro x
    rw [List.mem_filter, mem_generate_primes,
      mem_mod6_qualifying N k x (le_of_lt hk0)]
    simp only [Bool.and_eq_true, decide_eq_true_eq, mem_generate_primes]
    constructor
    · rintro ⟨⟨h2, hN, hp⟩, h11, h2k, hNk, hpk⟩
      exact ⟨by omega, by omega, hp, hpk⟩
    · rintro ⟨h11, hNk, hp, hpk⟩
      exact ⟨⟨by omega, by omega, hp⟩, by omega, ⟨by omega, by omega, hpk⟩⟩

/-- C6: For every bound N and every gap in the mod-6 subset, the pair set
scanned by the gap-pair scanner on the enumerated sequence with modulus 3
agrees exactly — membership, order, and each pair's has_property value —
with the pairs enumerated by the mod-6 analyzer; total_pairs equals the
number of analyzer records and successful_pairs the number of records with
has_property true. -/
theorem cross_check_scanners (N k : ℤ) (hk : k ∈ MOD6_GAPS) :
    scanned_pairs (generate_primes_array N) k =
      ((_collect_mod6_data N k).2).map (fun r => (r.2.2.2.1, r.2.2.2.2.1)) ∧
    (∀ r ∈ (_collect_mod6_data N k).2,
      pair_success 3 r.2.2.2.1 r.2.2.2.2.1 = r.2.2.1) ∧
    (_collect_base10_data (generate_primes_array N) k 3).1 =
      ((_collect_mod6_data N k).2).length ∧
    (_collect_base10_data (generate_primes_array N) k 3).2.1 =
      (((_collect_mod6_data N k).2).filter (fun r => r.2.2.1)).length := by
  have hk' : k = 6 ∨ k = 12 ∨ k = 18 ∨ k = 24 ∨ k = 30 := by
    have h := hk
    simp only [ MOD6_GAPS, List.mem_cons, List.not_mem_nil, or_false] at h
    exact h
  have hk0 : 0 < k := by rcases hk' with rfl | rfl | rfl | rfl | rfl <;> norm_num
  have heq := base10_filter_eq_mod6_qualifying N k hk0
  have hd2 := (mod6_data_eq N k).2
  have hbounds : ∀ p1 ∈ mod6_qualifying N k, 10 ≤ p1 ∧ 10 ≤ p1 + k := by
    intro p1 hp1
    have := (mem_mod6_qualifying N k p1 (by omega)).mp hp1
    constructor <;> omega
  refine ⟨?_, ?_, ?_, ?_⟩
  · rw [scanned_pairs_eq _ _ (generate_primes_sorted N), heq, hd2,
      List.map_map]
    rfl
  · intro r hr
    rw [hd2] at hr
    obtain ⟨p1, hp1, rfl⟩ := List.mem_map.mp hr
    exact pair_success_eq_has_property k p1 (hbounds p1 hp1).1
      (hbounds p1 hp1).2
  · rw [collect_base10_data_spec]
    dsimp only
    rw [scanned_pairs_eq _ _ (generate_primes_sorted N), heq, hd2,
      List.length_map, List.length_map]
  · rw [collect_base10_data_spec]
    dsimp only
    rw [scanned_pairs_eq _ _ (generate_primes_sorted N), heq, hd2,
      List.filter_map, List.length_map, List.filter_map, List.length_map]
    congr 1
    apply List.filter_congr
    intro x hx
    simp only [Function.comp_apply]
    exact pair_success_eq_has_property k x (hbounds x hx).1 (hbounds x hx).2

/-- C6 witness: evaluated at N = 60, k = 6. -/
theorem cross_check_scanners_witness :
    (6 : ℤ) ∈ MOD6_GAPS ∧
    (scanned_pairs (generate_primes_array 60) 6 =
      ((_collect_mod6_data 60 6).2).map (fun r => (r.2.2.2.1, r.2.2.2.2.1)) ∧
     (∀ r ∈ (_collect_mod6_data 60 6).2,
       pair_success 3 r.2.2.2.1 r.2.2.2.2.1 = r.2.2.1) ∧
     (_collect_base10_data (generate_primes_array 60) 6 3).1 =
       ((_collect_mod6_data 60 6).2).length ∧
     (_collect_base10_data (generate_primes_array 60) 6 3).2.1 =
       (((_collect_mod6_data 60 6).2).filter (fun r => r.2.2.1)).length) :=
  ⟨by decide, cross_check_scanners 60 6 (by decide)⟩

/-- Every visited pair of a full run has p1 ≥ 11 and partner p1 + gap. -/
lemma scanned_pairs_mem (primes : List ℤ) (gap : ℤ) (q : ℤ × ℤ)
    (hq : q ∈ scanned_pairs primes gap) :
    11 ≤ q.1 ∧ q.2 = q.1 + gap ∧ q.2 ∈ primes := by
  cases primes with
  | nil => cases hq
  | cons p ps =>
    obtain ⟨h1, h2, _, h4⟩ := scan_pairs_mem (p :: ps) _ gap (p :: ps) q hq
    exact ⟨h1, h2, h4⟩

/-- C7: the counterexample list holds exactly the first min(10, number of
failing pairs) failing pairs in scan order; it stops growing at 10 while
total and success counts reflect the full scan. -/
theorem counterexamples_capped (primes : List ℤ) (gap modulus : ℤ) :
    (_collect_base10_data primes gap modulus).2.2 =
      ((scanned_pairs primes gap).filter
        (fun q => !pair_success modulus q.1 q.2)).take 10 ∧
    (_collect_base10_data primes gap modulus).2.2.length =
      min 10 ((scanned_pairs primes gap).filter
        (fun q => !pair_success modulus q.1 q.2)).length ∧
    (_collect_base10_data primes gap modulus).1 =
      (scanned_pairs primes gap).length ∧
    (_collect_base10_data primes gap modulus).2.1 =
      ((scanned_pairs primes gap).filter
        (fun q => pair_success modulus q.1 q.2)).length := by
  rw [collect_base10_data_spec]
  refine ⟨rfl, ?_, rfl, rfl⟩
  dsimp only
  exact List.length_take 10 _

/-- Primes at least 5 lie in the residues 1 and 5 modulo 6. -/
lemma prime_int_mod6 (p : ℤ) (hp : Prime p) (hge : 5 ≤ p) :
    p % 6 = 1 ∨ p % 6 = 5 := by
  have hnat : Nat.Prime p.natAbs := Int.prime_iff_natAbs_prime.mp hp
  have hcast := Int.natAbs_of_nonneg (show 0 ≤ p by omega)
  have h2 : ¬(2 ∣ p.natAbs) := by
    intro h
    rcases hnat.eq_one_or_self_of_dvd 2 h with h' | h' <;> omega
  have h3 : ¬(3 ∣ p.natAbs) := by
    intro h
    rcases hnat.eq_one_or_self_of_dvd 3 h with h' | h' <;> omega
  omega

/-- The qualifying candidates of the mod-6 analyzer start at 11 and are
prime. -/
lemma mod6_qualifying_facts (N k p1 : ℤ) (hp1 : p1 ∈ mod6_qualifying N k) :
    11 ≤ p1 ∧ Prime p1 := by
  rw [mod6_qualifying, List.mem_filter] at hp1
  obtain ⟨hc, hpred⟩ := hp1
  rw [mod6_candidates] at hc
  obtain ⟨a, ha, rfl⟩ := List.mem_map.mp hc
  rw [List.mem_range'_1] at ha
  rw [Bool.and_eq_true] at hpred
  have := (is_prime_iff _).mp hpred.1
  exact ⟨by omega, this.2⟩

/-- C8: every pair record of either scanner has p1 ≥ 11 and p2 = p1 + gap
exactly, and every mod-6 analyzer record has residue p1 % 6 in {1, 5} — the
invariant that makes a fixed grouping over residues {1, 5} exhaustive. -/
theorem pair_record_invariants (primes : List ℤ) (gap modulus N k : ℤ) :
    (∀ q ∈ (_collect_base10_data primes gap modulus).2.2,
      11 ≤ q.1 ∧ q.2 = q.1 + gap) ∧
    (∀ r ∈ (_collect_mod6_data N k).2,
      11 ≤ r.2.2.2.1 ∧ r.2.2.2.2.1 = r.2.2.2.1 + k) ∧
    (∀ s ∈ (_collect_mod6_data N k).1, s.1 = 1 ∨ s.1 = 5) := by
  refine ⟨?_, ?_, ?_⟩
  · intro q hq
    rw [collect_base10_data_spec] at hq
    dsimp only at hq
    have hq' : q ∈ scanned_pairs primes gap :=
      List.mem_of_mem_filter (List.take_subset 10 _ hq)
    obtain ⟨h1, h2, _⟩ := scanned_pairs_mem primes gap q hq'
    exact ⟨h1, h2⟩
  · intro r hr
    rw [(mod6_data_eq N k).2] at hr
    obtain ⟨p1, hp1, rfl⟩ := List.mem_map.mp hr
    exact ⟨(mod6_qualifying_facts N k p1 hp1).1, rfl⟩
  · intro s hs
    rw [(mod6_data_eq N k).1] at hs
    obtain ⟨p1, hp1, rfl⟩ := List.mem_map.mp hs
    obtain ⟨h11, hp⟩ := mod6_qualifying_facts N k p1 hp1
    exact prime_int_mod6 p1 hp (by omega)

/-- C8 witness: concrete records of both scanners at bound 30, gap 6. -/
theorem pair_record_invariants_witness :
    (11 ≤ (23 : ℤ) ∧ (29 : ℤ) = 23 + 6) ∧
    (11 ≤ (11 : ℤ) ∧ (17 : ℤ) = 11 + 6) ∧
    ((5 : ℤ) = 1 ∨ (5 : ℤ) = 5) :=
  ⟨(pair_record_invariants (generate_primes_array 30) 6 3 30 6).1
      (23, 29) (by decide),
   (pair_record_invariants (generate_primes_array 30) 6 3 30 6).2.1
      (1, 7, true, 11, 17, 1, 1) (by decide),
   (pair_record_invariants (generate_primes_array 30) 6 3 30 6).2.2
      (5, true) (by decide)⟩

/-- C9: a degenerate bound N ≤ 1 yields an empty enumeration and a zero-pair
scan with no counterexamples for every gap; success never exceeds total, and
whenever total is positive the success rate (success / total) · 100 lies in
[0, 100]. -/
theorem degenerate_bound (N gap modulus : ℤ) (primes : List ℤ) (hN : N ≤ 1) :
    generate_primes_array N = [] ∧
    _collect_base10_data (generate_primes_array N) gap modulus = (0, 0, []) ∧
    (_collect_base10_data primes gap modulus).2.1 ≤
      (_collect_base10_data primes gap modulus).1 ∧
    (0 < (_collect_base10_data primes gap modulus).1 →
      0 ≤ ((_collect_base10_data primes gap modulus).2.1 : ℚ) /
          ((_collect_base10_data primes gap modulus).1 : ℚ) * 100 ∧
      ((_collect_base10_data primes gap modulus).2.1 : ℚ) /
          ((_collect_base10_data primes gap modulus).1 : ℚ) * 100 ≤ 100) := by
  have h0 : generate_primes_array N = [] := by
    unfold generate_primes_array
    rw [(by omega : (N - 1).toNat = 0)]
    rfl
  have hle : (_collect_base10_data primes gap modulus).2.1 ≤
      (_collect_base10_data primes gap modulus).1 := by
    rw [collect_base10_data_spec]
    dsimp only
    exact List.length_filter_le _ _
  refine ⟨h0, by rw [h0]; rfl, hle, fun hpos => ?_⟩
  have htq : (0 : ℚ) < ((_collect_base10_data primes gap modulus).1 : ℚ) := by
    exact_mod_cast hpos
  constructor
  · positivity
  · rw [div_mul_eq_mul_div, div_le_iff htq]
    have hc : ((_collect_base10_data primes gap modulus).2.1 : ℚ) ≤
        ((_collect_base10_data primes gap modulus).1 : ℚ) := by
      exact_mod_cast hle
    linarith

/-- C9 witness: bound 0 degrades gracefully; at bound 30, gap 2 the rate is
computed and lies in [0, 100]. -/
theorem degenerate_bound_witness :
    (0 : ℤ) ≤ 1 ∧
    generate_primes_array 0 = [] ∧
    _collect_base10_data (generate_primes_array 0) 2 3 = (0, 0, []) ∧
    (0 ≤ ((_collect_base10_data (generate_primes_array 30) 2 3).2.1 : ℚ) /
         ((_collect_base10_data (generate_primes_array 30) 2 3).1 : ℚ) * 100 ∧
     ((_collect_base10_data (generate_primes_array 30) 2 3).2.1 : ℚ) /
         ((_collect_base10_data (generate_primes_array 30) 2 3).1 : ℚ) * 100 ≤
       100) :=
  ⟨by decide,
   (degenerate_bound 0 2 3 (generate_primes_array 30) (by decide)).1,
   (degenerate_bound 0 2 3 (generate_primes_array 30) (by decide)).2.1,
   (degenerate_bound 0 2 3 (generate_primes_array 30) (by decide)).2.2.2
     (by decide)⟩

/-- C10: with a positive gap, every Δ evaluation of the scanner happens at an
argument ≥ 11, so the sentinel branch of `compute_delta` is unreachable
there: on every visited pair both Δ values equal the raw digit-square
expression, making the sentinel-free use in the success predicate safe. -/
theorem sentinel_unreachable (primes : List ℤ) (gap : ℤ) (hgap : 0 < gap) :
    ∀ q ∈ scanned_pairs primes gap,
      11 ≤ q.1 ∧ 11 ≤ q.2 ∧
      compute_delta q.1 = delta_raw q.1 ∧
      compute_delta q.2 = delta_raw q.2 := by
  intro q hq
  obtain ⟨h1, h2, _⟩ := scanned_pairs_mem primes gap q hq
  have h2' : 11 ≤ q.2 := by omega
  exact ⟨h1, h2',
    compute_delta_eq_delta_raw q.1 (by omega),
    compute_delta_eq_delta_raw q.2 (by omega)⟩

/-- C10 witness: the visited pair (11, 13) at bound 30, gap 2. -/
theorem sentinel_unreachable_witness :
    (0 : ℤ) < 2 ∧
    (11 ≤ (11 : ℤ) ∧ 11 ≤ (13 : ℤ) ∧
     compute_delta 11 = delta_raw 11 ∧ compute_delta 13 = delta_raw 13) :=
  ⟨by decide,
   sentinel_unreachable (generate_primes_array 30) 2 (by decide)
     (11, 13) (by decide)⟩

end PrimeAnalyzer
